import Mathlib

/-!
Shallow embedding of the discrete-event business-process simulator implemented
in `src/agent3.ts` (class `BPMNOptimizationAgent`), together with theorems that
settle the frozen claims about it.

Modelling conventions:
* JavaScript numbers are modelled as exact rationals `ℚ`; the places where the
  source can produce `NaN` or `±Infinity` (division, `Math.min`/`Math.max` of an
  empty spread, the even-median of an empty array) are modelled by the extended
  type `JsNum`.  All arithmetic appearing in the claims is exact in binary64
  (small integer sums, division by powers of two times small integers), so the
  rational model is faithful for them.
* `Math.random()` is modelled as an ambient stream `rand : ℕ → ℚ` together with
  an explicit index that is threaded through the computation; every call of
  `Math.random()` in the source consumes exactly one stream element (note the
  short-circuit in `!flow.condition || Math.random() < …`, which consumes a
  draw only when the condition is truthy).
* JavaScript objects used as dictionaries (`resourceUtilization`, `cases`,
  `lastEnd`, `waiting`) are modelled as association lists in key-insertion
  order, which is the enumeration order of `Object.entries` / `Object.values`
  for string keys.
* `Date` values are modelled by their millisecond value (a rational).
* Thrown exceptions are modelled with `Except JsError`.
-/

/-- `ActivityDuration` (src/agent3.ts lines 5-9). -/
structure ActivityDuration where
  min : ℚ
  max : ℚ
  unit : String
deriving DecidableEq, Repr

/-- `ProcessActivity` (src/agent3.ts lines 11-20).  The `type` union is kept as
a plain string since it is descriptive only. -/
structure ProcessActivity where
  id : String
  name : String
  type : String
  performer : String
  duration : ActivityDuration
  cost : ℚ
  resources : ℚ
  probability : ℚ
deriving DecidableEq, Repr

/-- `ProcessFlow` (src/agent3.ts lines 22-27).  `condition : string | null` is
modelled as `Option String`. -/
structure ProcessFlow where
  «from» : String
  «to» : String
  condition : Option String
  probability : ℚ
deriving DecidableEq, Repr

/-- `ProcessResource` (src/agent3.ts lines 29-33). -/
structure ProcessResource where
  role : String
  capacity : ℚ
  costPerHour : ℚ
deriving DecidableEq, Repr

/-- `ProcessStructure` (src/agent3.ts lines 35-40). -/
structure ProcessStructure where
  processName : String
  activities : List ProcessActivity
  flows : List ProcessFlow
  resources : List ProcessResource
deriving DecidableEq, Repr

/-- `ScenarioModification` (src/agent3.ts lines 42-47); optional fields become
`Option`. -/
structure ScenarioModification where
  id : String
  duration : Option ActivityDuration
  cost : Option ℚ
  resources : Option ℚ
deriving DecidableEq, Repr

/-- The `modifications` object inside `Scenario` (src/agent3.ts lines 52-55). -/
structure ScenarioModifications where
  activities : Option (List ScenarioModification)
  resources : Option (List ProcessResource)
deriving DecidableEq, Repr

/-- `Scenario` (src/agent3.ts lines 49-56). -/
structure Scenario where
  scenarioName : String
  description : Option String
  modifications : Option ScenarioModifications
deriving DecidableEq, Repr

/-- The `event` discriminator of `SimulationEvent`: `'start' | 'complete'`. -/
inductive EventPhase where
  | start
  | complete
deriving DecidableEq, Repr

/-- `SimulationEvent` (src/agent3.ts lines 58-67).  `timestamp` is the
millisecond value of the `Date`; `duration` is present only on completes. -/
structure SimulationEvent where
  caseId : ℕ
  activity : String
  activityId : String
  event : EventPhase
  timestamp : ℚ
  resource : String
  cost : ℚ
  duration : Option ℚ
deriving DecidableEq, Repr

/-- Exceptions the embedded code can raise.  `validationError` is in the error
vocabulary because the specification mentions a `ValidationError`; the source
never constructs one.  `fuelExhausted` is an artifact of embedding the
unbounded `while` loop with explicit fuel; it is proved unreachable. -/
inductive JsError where
  | typeError (message : String)
  | validationError (message : String)
  | fuelExhausted
deriving DecidableEq, Repr

deriving instance DecidableEq for Except

/-- Stable insertion of `x` into a `le`-sorted list: `x` lands before the
first element it is `le`-below, hence after all elements equal to it. -/
def jsInsert {α : Type} (le : α → α → Bool) (x : α) : List α → List α
  | [] => [x]
  | y :: ys => if le x y then x :: y :: ys else y :: jsInsert le x ys

/-- Stable insertion sort.  `Array.prototype.sort` with a consistent
comparator is specified to be a stable sort by the comparator's total
preorder; the result of any stable sort is uniquely determined by the input
and the preorder, so this structurally recursive sort is a faithful model of
the JavaScript call. -/
def jsSort {α : Type} (le : α → α → Bool) : List α → List α
  | [] => []
  | x :: xs => jsInsert le x (jsSort le xs)

/-- JavaScript truthiness of `x || y` for a possibly-undefined number
(`undefined`, `0` and `NaN` are falsy; we never feed `NaN` here). -/
def jsOrOptQ (x : Option ℚ) (y : ℚ) : ℚ :=
  match x with
  | none => y
  | some v => if v = 0 then y else v

/-- JavaScript `a || b` for two definite numbers (`0` is falsy). -/
def jsOrQ (a b : ℚ) : ℚ :=
  if a = 0 then b else a

/-- JavaScript truthiness of the `condition` field: `null` and the empty
string are falsy, every other string is truthy. -/
def condTruthy : Option String → Bool
  | none => false
  | some s => !s.isEmpty

/-- `applyScenarioModifications` (src/agent3.ts lines 338-353).  The source
uses `mod.duration || activity.duration` (an object, truthy whenever present)
and `mod.cost || activity.cost`, `mod.resources || activity.resources`
(numbers, so a present-but-zero override is falsy and falls back). -/
def applyScenarioModifications (activities : List ProcessActivity)
    (modifications : Option ScenarioModifications) : List ProcessActivity :=
  match modifications with
  | none => activities
  | some mods =>
      activities.map fun activity =>
        match (mods.activities.getD []).find? (fun m => m.id == activity.id) with
        | some mod =>
            { activity with
              duration := mod.duration.getD activity.duration
              cost := jsOrOptQ mod.cost activity.cost
              resources := jsOrOptQ mod.resources activity.resources }
        | none => activity

/-- A pending work item of the per-case FIFO queue
(`{ activityId, time }`, src/agent3.ts line 356). -/
structure WorkItem where
  activityId : String
  time : ℚ
deriving DecidableEq, Repr

/-- The per-role busy-minute accumulator `resourceUtilization` (only the
`total` field is ever read downstream), as an association list in
key-insertion order. -/
abbrev RoleTotals := List (String × ℚ)

/-- One step of `processStructure.resources.forEach(r => {
resourceUtilization[r.role] = { busy: 0, total: 0, waiting: [] } })`: assigning
a key overwrites in place when present and appends otherwise. -/
def initUtilStep (util : RoleTotals) (r : ProcessResource) : RoleTotals :=
  if (util.find? (fun p => p.1 == r.role)).isSome then
    util.map (fun p => if p.1 == r.role then (p.1, 0) else p)
  else
    util ++ [(r.role, 0)]

/-- Initialisation of `resourceUtilization` (src/agent3.ts lines 310-312). -/
def initUtil (resources : List ProcessResource) : RoleTotals :=
  resources.foldl initUtilStep []

/-- `if (resourceUtil[activity.performer]) { resourceUtil[….performer].total
+= duration }` (src/agent3.ts lines 400-402): a lookup miss is a no-op. -/
def addBusy (util : RoleTotals) (role : String) (d : ℚ) : RoleTotals :=
  util.map (fun p => if p.1 == role then (p.1, p.2 + d) else p)

/-- The inner `for (const flow of nextFlows)` loop (src/agent3.ts lines
406-410): a flow whose condition is falsy is always enqueued without drawing;
otherwise one draw is consumed and the flow is enqueued iff the draw is below
`flow.probability || 1.0`.  Returns the pushed items and the next stream
index. -/
def enqueueFlows (rand : ℕ → ℚ) (endTime : ℚ) :
    List ProcessFlow → ℕ → List WorkItem × ℕ
  | [], ridx => ([], ridx)
  | f :: fs, ridx =>
      if condTruthy f.condition = false then
        let rec2 := enqueueFlows rand endTime fs ridx
        (⟨f.«to», endTime⟩ :: rec2.1, rec2.2)
      else if rand ridx < jsOrQ f.probability 1 then
        let rec2 := enqueueFlows rand endTime fs (ridx + 1)
        (⟨f.«to», endTime⟩ :: rec2.1, rec2.2)
      else
        enqueueFlows rand endTime fs (ridx + 1)

/-- Number of activity ids not yet visited; the strictly decreasing part of
the termination measure of the worklist loop. -/
def unvisitedCount (activities : List ProcessActivity) (visited : Finset String) : ℕ :=
  ((activities.map (fun a => a.id)).toFinset \ visited).card

/-- Fuel that provably suffices for the worklist loop to drain its queue. -/
def caseFuel (activities : List ProcessActivity) (flows : List ProcessFlow)
    (queue : List WorkItem) (visited : Finset String) : ℕ :=
  queue.length + unvisitedCount activities visited * (flows.length + 1)

/-- The `while (queue.length > 0)` worklist loop of `simulateCase`
(src/agent3.ts lines 358-411), with explicit fuel (one unit per iteration;
`none` means the fuel ran out, which is proved impossible for `caseFuel`).
State: queue, visited set, events emitted so far by this case (the source
appends to a shared array; we return this case's suffix), busy-minute
accumulator, and the random-stream index. -/
def simCaseLoop (caseId : ℕ) (activities : List ProcessActivity)
    (flows : List ProcessFlow) (rand : ℕ → ℚ) :
    ℕ → List WorkItem → Finset String → List SimulationEvent → RoleTotals → ℕ →
    Option (List SimulationEvent × RoleTotals × ℕ)
  | fuel, queue, visited, events, util, ridx =>
    match queue with
    | [] => some (events, util, ridx)
    | item :: rest =>
      match fuel with
      | 0 => none
      | fuel' + 1 =>
        if item.activityId ∈ visited then
          simCaseLoop caseId activities flows rand fuel' rest visited events util ridx
        else
          match activities.find? (fun a => a.id == item.activityId) with
          | none =>
              simCaseLoop caseId activities flows rand fuel' rest visited events util ridx
          | some activity =>
              let startEvent : SimulationEvent :=
                { caseId := caseId, activity := activity.name, activityId := activity.id
                  event := EventPhase.start, timestamp := item.time
                  resource := activity.performer, cost := 0, duration := none }
              let duration :=
                activity.duration.min +
                  rand ridx * (activity.duration.max - activity.duration.min)
              let endTime := item.time + duration * 60000
              let endEvent : SimulationEvent :=
                { caseId := caseId, activity := activity.name, activityId := activity.id
                  event := EventPhase.complete, timestamp := endTime
                  resource := activity.performer, cost := jsOrQ activity.cost 0
                  duration := some duration }
              let visited' := insert item.activityId visited
              let util' := addBusy util activity.performer duration
              let nextFlows := flows.filter (fun f => f.«from» == item.activityId)
              let pushed := enqueueFlows rand endTime nextFlows (ridx + 1)
              simCaseLoop caseId activities flows rand fuel' (rest ++ pushed.1) visited'
                (events ++ [startEvent, endEvent]) util' pushed.2

/-- `simulateCase` (src/agent3.ts lines 355-412).  An empty activity list
makes `activities[0].id` throw a `TypeError`; otherwise the worklist loop runs
from the seed item `{ activityId: activities[0].id, time: startTime }`. -/
def simulateCase (caseId : ℕ) (activities : List ProcessActivity)
    (flows : List ProcessFlow) (startTime : ℚ) (rand : ℕ → ℚ)
    (visited : Finset String) (util : RoleTotals) (ridx : ℕ) :
    Except JsError (List SimulationEvent × RoleTotals × ℕ) :=
  match activities with
  | [] => Except.error (JsError.typeError "Cannot read properties of undefined (reading id)")
  | a0 :: _ =>
      let seed : List WorkItem := [⟨a0.id, startTime⟩]
      match simCaseLoop caseId activities flows rand
          (caseFuel activities flows seed visited) seed visited [] util ridx with
      | some out => Except.ok out
      | none => Except.error JsError.fuelExhausted

/-- The fixed per-case calendar start `new Date(2024, 0, 1, 8, 0, 0)`
(src/agent3.ts line 321), in milliseconds.  The source value depends on the
host timezone; the constant is the UTC reading, and no claim depends on the
absolute value. -/
def caseStartMs : ℚ := 1704096000000

/-- The `for (let caseId = 1; caseId <= numInstances; caseId++)` driver loop
of `simulateProcess` (src/agent3.ts lines 320-333): each case gets a fresh
`visited` set, while the event log, the busy-minute accumulator and the random
stream are shared across cases. -/
def simRun (activities : List ProcessActivity) (flows : List ProcessFlow)
    (rand : ℕ → ℚ) :
    ℕ → ℕ → List SimulationEvent → RoleTotals → ℕ →
    Except JsError (List SimulationEvent × RoleTotals)
  | 0, _, events, util, _ => Except.ok (events, util)
  | n + 1, caseId, events, util, ridx =>
      match simulateCase caseId activities flows caseStartMs rand ∅ util ridx with
      | Except.error e => Except.error e
      | Except.ok (cevs, util', ridx') =>
          simRun activities flows rand n (caseId + 1) (events ++ cevs) util' ridx'

/-- `simulateProcess` (src/agent3.ts lines 303-336): initialise the per-role
accumulator, apply the scenario's activity modifications, then run
`numInstances` cases. -/
def simulateProcess (ps : ProcessStructure) (scenario : Scenario)
    (numInstances : ℕ) (rand : ℕ → ℚ) :
    Except JsError (List SimulationEvent × RoleTotals) :=
  let resourceUtilization := initUtil ps.resources
  let modifiedActivities :=
    applyScenarioModifications ps.activities scenario.modifications
  simRun modifiedActivities ps.flows rand numInstances 1 [] resourceUtilization 0

/-- Extended JavaScript number: a finite rational, `NaN`, or `±Infinity`. -/
inductive JsNum where
  | num (q : ℚ)
  | nan
  | inf
  | neginf
deriving DecidableEq, Repr

/-- JavaScript division of two finite numbers: `0/0 = NaN`, `x/0 = ±Infinity`
for `x ≠ 0` (the denominators produced by the source are non-negative, so the
signed-zero refinement is immaterial), otherwise exact. -/
def jsDiv (a b : ℚ) : JsNum :=
  if b = 0 then
    if a = 0 then JsNum.nan
    else if 0 < a then JsNum.inf
    else JsNum.neginf
  else JsNum.num (a / b)

/-- Multiplication of a JavaScript number by the positive literal `100`
(`(data.total / …) * 100`). -/
def jsMul100 : JsNum → JsNum
  | JsNum.num q => JsNum.num (q * 100)
  | JsNum.nan => JsNum.nan
  | JsNum.inf => JsNum.inf
  | JsNum.neginf => JsNum.neginf

/-- `reduce((a, b) => a + b, 0)`. -/
def qsum (l : List ℚ) : ℚ := l.foldl (· + ·) 0

/-- `Math.min(...l)`: `Infinity` on the empty spread. -/
def jsMin : List ℚ → JsNum
  | [] => JsNum.inf
  | x :: xs => JsNum.num (xs.foldl min x)

/-- `Math.max(...l)`: `-Infinity` on the empty spread. -/
def jsMax : List ℚ → JsNum
  | [] => JsNum.neginf
  | x :: xs => JsNum.num (xs.foldl max x)

/-- `median` (src/agent3.ts lines 509-513).  `arr.sort((a, b) => a - b)` is a
stable ascending sort; for the empty array the even branch reads
`sorted[-1] + sorted[0] = undefined + undefined = NaN` (the `mid - 1` index is
truncated Nat subtraction, which only differs from the JavaScript `-1` on the
empty array, where both lookups miss). -/
def median (arr : List ℚ) : JsNum :=
  let sorted := jsSort (fun a b : ℚ => decide (a ≤ b)) arr
  let mid := arr.length / 2
  if arr.length % 2 = 1 then
    match sorted[mid]? with
    | some v => JsNum.num v
    | none => JsNum.nan
  else
    match sorted[mid - 1]?, sorted[mid]? with
    | some a, some b => JsNum.num ((a + b) / 2)
    | _, _ => JsNum.nan

/-- Per-case aggregation record built by `calculatePerformanceMetrics`
(src/agent3.ts line 424): `{ start: null, end: null, cost: 0, activities: [] }`.
The JavaScript field `end` is a Lean keyword and is rendered `endTs`. -/
structure CaseAgg where
  start : Option ℚ
  endTs : Option ℚ
  cost : ℚ
  activities : List (String × Option ℚ)
deriving DecidableEq, Repr

/-- Folding one event into a case record (src/agent3.ts lines 427-437): the
first `start` event fixes `start`; every `complete` event overwrites `end`,
accumulates `cost` and appends to `activities`. -/
def applyEventToCase (c : CaseAgg) (e : SimulationEvent) : CaseAgg :=
  let c :=
    if e.event == EventPhase.start && c.start.isNone then
      { c with start := some e.timestamp }
    else c
  if e.event == EventPhase.complete then
    { c with
      endTs := some e.timestamp
      cost := c.cost + e.cost
      activities := c.activities ++ [(e.activity, e.duration)] }
  else c

/-- One step of the `events.forEach` case-reconstruction loop (src/agent3.ts
lines 422-438): create the case record on first sight of a case id (insertion
order), then fold the event into it. -/
def updateCases (cases : List (ℕ × CaseAgg)) (e : SimulationEvent) :
    List (ℕ × CaseAgg) :=
  let cases :=
    if (cases.find? (fun p => p.1 == e.caseId)).isSome then cases
    else cases ++ [(e.caseId, ⟨none, none, 0, []⟩)]
  cases.map (fun p => if p.1 == e.caseId then (p.1, applyEventToCase p.2 e) else p)

/-- The `cases` dictionary, keyed by case id in first-occurrence order. -/
def buildCases (events : List SimulationEvent) : List (ℕ × CaseAgg) :=
  events.foldl updateCases []

/-- The case records having both a start and an end (src/agent3.ts line 444),
in dictionary order. -/
def completedAggs (cases : List (ℕ × CaseAgg)) : List CaseAgg :=
  (cases.map Prod.snd).filter (fun c => c.start.isSome && c.endTs.isSome)

/-- `throughputTimes` (src/agent3.ts lines 443-449): `(end - start)` in hours
per completed case. -/
def throughputTimes (cases : List (ℕ × CaseAgg)) : List ℚ :=
  (completedAggs cases).map
    (fun c => (c.endTs.getD 0 - c.start.getD 0) / (1000 * 60 * 60))

/-- `costs` (src/agent3.ts lines 443-449): per-case total cost over the same
completed-case set. -/
def caseCosts (cases : List (ℕ × CaseAgg)) : List ℚ :=
  (completedAggs cases).map (fun c => c.cost)

/-- Comparator of the chronological sort in `calculateWaitingTimes`
(`(a, b) => a.timestamp - b.timestamp`). -/
def tsLe (a b : SimulationEvent) : Bool := decide (a.timestamp ≤ b.timestamp)

/-- State of the `sorted.forEach` pass of `calculateWaitingTimes`: the
`lastEnd` per-case dictionary and the `waiting` per-activity-name buckets. -/
structure WaitState where
  lastEnd : List (ℕ × ℚ)
  waiting : List (String × List ℚ)
deriving DecidableEq, Repr

/-- Dictionary write `lastEnd[caseId] = timestamp`. -/
def setLastEnd (l : List (ℕ × ℚ)) (k : ℕ) (v : ℚ) : List (ℕ × ℚ) :=
  if (l.find? (fun p => p.1 == k)).isSome then
    l.map (fun p => if p.1 == k then (p.1, v) else p)
  else l ++ [(k, v)]

/-- `if (!waiting[activity]) waiting[activity] = []; waiting[activity].push(wait)`. -/
def pushWaiting (w : List (String × List ℚ)) (k : String) (v : ℚ) :
    List (String × List ℚ) :=
  if (w.find? (fun p => p.1 == k)).isSome then
    w.map (fun p => if p.1 == k then (p.1, p.2 ++ [v]) else p)
  else w ++ [(k, [v])]

/-- One step of the `sorted.forEach` pass (src/agent3.ts lines 490-499): a
`start` event with a recorded prior completion for its case books the waiting
time `(start - lastEnd) / (1000 * 60)` minutes under the activity name; a
`complete` event records its timestamp as the case's `lastEnd`. -/
def waitStep (st : WaitState) (e : SimulationEvent) : WaitState :=
  let st :=
    match e.event, (st.lastEnd.find? (fun p => p.1 == e.caseId)).map Prod.snd with
    | EventPhase.start, some prev =>
        { st with
          waiting := pushWaiting st.waiting e.activity ((e.timestamp - prev) / (1000 * 60)) }
    | _, _ => st
  if e.event == EventPhase.complete then
    { st with lastEnd := setLastEnd st.lastEnd e.caseId e.timestamp }
  else st

/-- `calculateWaitingTimes` (src/agent3.ts lines 484-507).  Note that
`const sorted = events.sort(…)` sorts the caller's array **in place** (a
stable sort by timestamp); the second component is the state of that array
after the call.  Every `waiting` bucket is created non-empty, so the plain
rational division of the final averaging never divides by zero. -/
def calculateWaitingTimes (events : List SimulationEvent) :
    List (String × ℚ) × List SimulationEvent :=
  let sorted := jsSort tsLe events
  let final := sorted.foldl waitStep ⟨[], []⟩
  (final.waiting.map (fun p => (p.1, qsum p.2 / (p.2.length : ℚ))), sorted)

/-- `ThroughputMetrics` (src/agent3.ts lines 69-74), in the `JsNum` model. -/
structure ThroughputMetrics where
  avg : JsNum
  min : JsNum
  max : JsNum
  median : JsNum
deriving DecidableEq, Repr

/-- `CostMetrics` (src/agent3.ts lines 76-79); `total` starts the reduce at
`0`, hence always finite. -/
structure CostMetrics where
  avg : JsNum
  total : ℚ
deriving DecidableEq, Repr

/-- `PerformanceMetrics` (src/agent3.ts lines 81-87); the two `Record` fields
are association lists in key-insertion order. -/
structure PerformanceMetrics where
  throughput : ThroughputMetrics
  cost : CostMetrics
  waitingTime : List (String × ℚ)
  utilization : List (String × JsNum)
  casesCompleted : ℕ
deriving DecidableEq, Repr

/-- `calculatePerformanceMetrics` (src/agent3.ts lines 419-482).  The second
component is the caller's event array after the call (mutated in place by the
chronological sort inside `calculateWaitingTimes`; the case reconstruction
runs before that sort).  `totalSimTime = 8 * 60 * numCases / 5` and the
utilization of a role is `total / (totalSimTime * capacity) * 100` with the
capacity looked up in the process structure (default `1`). -/
def calculatePerformanceMetrics (events : List SimulationEvent)
    (resourceUtil : RoleTotals) (processStructure : ProcessStructure) :
    PerformanceMetrics × List SimulationEvent :=
  let cases := buildCases events
  let tts := throughputTimes cases
  let costs := caseCosts cases
  let avgThroughput := jsDiv (qsum tts) (tts.length : ℚ)
  let avgCost := jsDiv (qsum costs) (costs.length : ℚ)
  let wt := calculateWaitingTimes events
  let totalSimTime : ℚ := 8 * 60 * (cases.length : ℚ) / 5
  let utilization := resourceUtil.map (fun p =>
    let capacity : ℚ :=
      match processStructure.resources.find? (fun r => r.role == p.1) with
      | some resource => resource.capacity
      | none => 1
    (p.1, jsMul100 (jsDiv p.2 (totalSimTime * capacity))))
  ({ throughput :=
      { avg := avgThroughput, min := jsMin tts, max := jsMax tts, median := median tts }
     cost := { avg := avgCost, total := qsum costs }
     waitingTime := wt.1
     utilization := utilization
     casesCompleted := cases.length },
   wt.2)

/-- The flow loop pushes at most one item per flow. -/
theorem enqueueFlows_length_le (rand : ℕ → ℚ) (endTime : ℚ) :
    ∀ (fs : List ProcessFlow) (ridx : ℕ),
      (enqueueFlows rand endTime fs ridx).1.length ≤ fs.length
  | [], _ => by simp [enqueueFlows]
  | f :: fs, ridx => by
    simp only [enqueueFlows]
    split
    · simpa using enqueueFlows_length_le rand endTime fs ridx
    · split
      · simpa using enqueueFlows_length_le rand endTime fs (ridx + 1)
      · exact Nat.le_succ_of_le (enqueueFlows_length_le rand endTime fs (ridx + 1))

/-- A successful `find?` on the activity list puts the looked-up id among the
activity ids. -/
theorem find?_activity_mem_ids {activities : List ProcessActivity} {aid : String}
    {activity : ProcessActivity}
    (h : activities.find? (fun a => a.id == aid) = some activity) :
    aid ∈ (activities.map (fun a => a.id)).toFinset := by
  have hmem : activity ∈ activities := List.mem_of_find?_eq_some h
  have hid : activity.id = aid := by
    have := List.find?_some h
    simpa [beq_iff_eq] using this
  exact List.mem_toFinset.mpr (hid ▸ List.mem_map_of_mem (fun a => a.id) hmem)

/-- Visiting a fresh activity id strictly shrinks the unvisited count. -/
theorem unvisitedCount_insert {activities : List ProcessActivity}
    {visited : Finset String} {aid : String}
    (hmem : aid ∈ (activities.map (fun a => a.id)).toFinset)
    (hnv : aid ∉ visited) :
    unvisitedCount activities (insert aid visited) =
      unvisitedCount activities visited - 1 ∧
    1 ≤ unvisitedCount activities visited := by
  have hsd : aid ∈ (activities.map (fun a => a.id)).toFinset \ visited :=
    Finset.mem_sdiff.mpr ⟨hmem, hnv⟩
  constructor
  · unfold unvisitedCount
    rw [Finset.sdiff_insert, Finset.card_erase_of_mem hsd]
  · exact Finset.card_pos.mpr ⟨aid, hsd⟩

/-- Fuel sufficiency for the worklist loop: `caseFuel` iterations always drain
the queue.  This is the termination argument of the specification: the visited
set strictly grows inside the finite activity-id set, and between growth steps
the queue only shrinks. -/
theorem simCaseLoop_isSome (caseId : ℕ) (activities : List ProcessActivity)
    (flows : List ProcessFlow) (rand : ℕ → ℚ) :
    ∀ (fuel : ℕ) (queue : List WorkItem) (visited : Finset String)
      (events : List SimulationEvent) (util : RoleTotals) (ridx : ℕ),
      caseFuel activities flows queue visited ≤ fuel →
      (simCaseLoop caseId activities flows rand fuel queue visited events util ridx).isSome := by
  intro fuel
  induction fuel with
  | zero =>
    intro queue visited events util ridx h
    match queue with
    | [] => simp [simCaseLoop]
    | item :: rest =>
      exfalso
      simp [caseFuel] at h
  | succ f ih =>
    intro queue visited events util ridx h
    match queue with
    | [] => simp [simCaseLoop]
    | item :: rest =>
      simp only [simCaseLoop]
      split
      · -- already visited: discard
        apply ih
        simp only [caseFuel, List.length_cons] at h ⊢
        omega
      · -- not visited: resolve the activity
        rename_i hnv
        split
        · -- dangling reference: discard
          apply ih
          simp only [caseFuel, List.length_cons] at h ⊢
          omega
        · -- process the activity
          rename_i activity hfind
          apply ih
          have hpush :
              (enqueueFlows rand
                (item.time +
                  (activity.duration.min +
                    rand ridx * (activity.duration.max - activity.duration.min)) * 60000)
                (flows.filter (fun f => f.«from» == item.activityId)) (ridx + 1)).1.length ≤
                flows.length :=
            le_trans (enqueueFlows_length_le _ _ _ _) (List.length_filter_le _ _)
          have hvc := unvisitedCount_insert (find?_activity_mem_ids hfind) hnv
          simp only [caseFuel, List.length_cons, List.length_append] at h ⊢
          rw [hvc.1]
          have hkey : (unvisitedCount activities visited - 1) * (flows.length + 1) =
              unvisitedCount activities visited * (flows.length + 1) - (flows.length + 1) :=
            Nat.sub_one_mul _ _
          have hle : flows.length + 1 ≤
              unvisitedCount activities visited * (flows.length + 1) :=
            Nat.le_mul_of_pos_left _ hvc.2
          omega

/-- The activity ids of the `start` events of a log. -/
def startIds (evs : List SimulationEvent) : List String :=
  (evs.filter (fun e => e.event == EventPhase.start)).map (fun e => e.activityId)

/-- Accumulating busy minutes never changes the key set of the accumulator. -/
theorem addBusy_keys : ∀ (util : RoleTotals) (role : String) (d : ℚ),
    (addBusy util role d).map Prod.fst = util.map Prod.fst
  | [], _, _ => rfl
  | p :: ps, role, d => by
    have ih := addBusy_keys ps role d
    simp only [addBusy, List.map_cons] at ih ⊢
    split <;> simp_all

/-- Run invariant of the worklist loop: the events appended by a run all carry
the loop's case id, their `start` events have pairwise distinct activity ids,
none of those ids was in the initial visited set, and the accumulator's key
set is unchanged. -/
theorem simCaseLoop_spec (caseId : ℕ) (activities : List ProcessActivity)
    (flows : List ProcessFlow) (rand : ℕ → ℚ) :
    ∀ (fuel : ℕ) (queue : List WorkItem) (visited : Finset String)
      (events : List SimulationEvent) (util : RoleTotals) (ridx : ℕ)
      (evs' : List SimulationEvent) (util' : RoleTotals) (ridx' : ℕ),
      simCaseLoop caseId activities flows rand fuel queue visited events util ridx =
        some (evs', util', ridx') →
      ∃ extra, evs' = events ++ extra ∧
        (∀ e ∈ extra, e.caseId = caseId) ∧
        (startIds extra).Nodup ∧
        (∀ x ∈ startIds extra, x ∉ visited) ∧
        util'.map Prod.fst = util.map Prod.fst := by
  intro fuel
  induction fuel with
  | zero =>
    intro queue visited events util ridx evs' util' ridx' h
    match queue with
    | [] =>
      simp only [simCaseLoop, Option.some.injEq, Prod.mk.injEq] at h
      exact ⟨[], by simp [h.1.symm, h.2.1.symm, startIds]⟩
    | item :: rest => simp [simCaseLoop] at h
  | succ f ih =>
    intro queue visited events util ridx evs' util' ridx' h
    match queue with
    | [] =>
      simp only [simCaseLoop, Option.some.injEq, Prod.mk.injEq] at h
      exact ⟨[], by simp [h.1.symm, h.2.1.symm, startIds]⟩
    | item :: rest =>
      simp only [simCaseLoop] at h
      split at h
      · exact ih rest visited events util ridx evs' util' ridx' h
      · rename_i hnv
        split at h
        · exact ih rest visited events util ridx evs' util' ridx' h
        · rename_i activity hfind
          obtain ⟨extra, hevs, hcase, hnodup, hdisj, hkeys⟩ :=
            ih _ _ _ _ _ _ _ _ h
          have hid : activity.id = item.activityId := by
            have := List.find?_some hfind
            simpa [beq_iff_eq] using this
          rw [List.append_assoc] at hevs
          refine ⟨_, hevs, ?_, ?_, ?_, ?_⟩
          · intro e he
            simp only [List.cons_append, List.nil_append, List.mem_cons] at he
            rcases he with rfl | rfl | he
            · rfl
            · rfl
            · exact hcase e he
          · simp only [startIds, List.cons_append, List.nil_append, List.filter_cons] at hnodup ⊢
            simp only [beq_self_eq_true, if_pos, List.map_cons, List.nodup_cons]
            refine ⟨?_, hnodup⟩
            intro hmem
            have := hdisj _ hmem
            simp [hid, Finset.mem_insert] at this
          · intro x hx
            simp only [startIds, List.cons_append, List.nil_append, List.filter_cons] at hx
            simp only [beq_self_eq_true, if_pos, List.map_cons, List.mem_cons] at hx
            rcases hx with rfl | hx
            · exact hid ▸ hnv
            · intro hxv
              exact hdisj x hx (Finset.mem_insert_of_mem hxv)
          · rw [hkeys, addBusy_keys]

/-- Specialisation of the loop invariant to a fresh case (empty visited set,
empty event accumulator), i.e. to `simulateCase` as called by driver code. -/
theorem simulateCase_spec {caseId : ℕ} {activities : List ProcessActivity}
    {flows : List ProcessFlow} {startTime : ℚ} {rand : ℕ → ℚ}
    {util : RoleTotals} {ridx : ℕ} {evs : List SimulationEvent}
    {util' : RoleTotals} {ridx' : ℕ}
    (h : simulateCase caseId activities flows startTime rand ∅ util ridx =
      Except.ok (evs, util', ridx')) :
    (∀ e ∈ evs, e.caseId = caseId) ∧ (startIds evs).Nodup ∧
      util'.map Prod.fst = util.map Prod.fst := by
  cases activities with
  | nil => simp [simulateCase] at h
  | cons a0 rest =>
    simp only [simulateCase] at h
    split at h
    · rename_i out hloop
      obtain ⟨rfl⟩ : out = (evs, util', ridx') := by
        simpa using h
      obtain ⟨extra, hevs, hcase, hnodup, _, hkeys⟩ :=
        simCaseLoop_spec caseId (a0 :: rest) flows rand _ _ _ _ _ _ _ _ _ hloop
      simp only [List.nil_append] at hevs
      subst hevs
      exact ⟨hcase, hnodup, hkeys⟩
    · simp at h

/-- C7: for every finite process graph (cyclic or dangling flows included),
every activity list that is non-empty (as the claim's scenario guarantees) and
every random stream, the worklist loop of `simulateCase` terminates: the fuel
bound `caseFuel` — one unit per loop iteration — provably drains the queue, so
the embedded run returns `Except.ok` instead of the (unreachable)
`fuelExhausted` artifact.  The visited set strictly grows inside the finite
activity-id set and each processing pushes at most one item per flow. -/
theorem simulateCase_terminates (caseId : ℕ) (activities : List ProcessActivity)
    (flows : List ProcessFlow) (startTime : ℚ) (rand : ℕ → ℚ)
    (visited : Finset String) (util : RoleTotals) (ridx : ℕ)
    (h : activities ≠ []) :
    ∃ out, simulateCase caseId activities flows startTime rand visited util ridx =
      Except.ok out := by
  cases activities with
  | nil => exact absurd rfl h
  | cons a0 rest =>
    have hs := simCaseLoop_isSome caseId (a0 :: rest) flows rand
      (caseFuel (a0 :: rest) flows [⟨a0.id, startTime⟩] visited)
      [⟨a0.id, startTime⟩] visited [] util ridx le_rfl
    obtain ⟨out, hout⟩ := Option.isSome_iff_exists.mp hs
    exact ⟨out, by simp [simulateCase, hout]⟩

/-- Fixture: activity `A1(dur=10,10, cost=5)` of the specification's worked
example. -/
def exA1 : ProcessActivity :=
  { id := "A1", name := "A1", type := "task", performer := "W",
    duration := { min := 10, max := 10, unit := "minutes" }, cost := 5,
    resources := 1, probability := 1 }

/-- Fixture: activity `A2(dur=5,5, cost=3)` of the specification's worked
example. -/
def exA2 : ProcessActivity :=
  { id := "A2", name := "A2", type := "task", performer := "W",
    duration := { min := 5, max := 5, unit := "minutes" }, cost := 3,
    resources := 1, probability := 1 }

/-- Fixture: the single unconditional flow `A1 → A2` with probability 1. -/
def exFlow : ProcessFlow :=
  { «from» := "A1", «to» := "A2", condition := none, probability := 1 }

/-- Fixture: the two-activity process of the worked example. -/
def exPS : ProcessStructure :=
  { processName := "P", activities := [exA1, exA2], flows := [exFlow],
    resources := [] }

/-- Fixture: a scenario with no modifications. -/
def exScenario : Scenario :=
  { scenarioName := "Baseline", description := none, modifications := none }

/-- Fixture: a concrete random stream (constantly 3/4). -/
def exRand : ℕ → ℚ := fun _ => 3 / 4

/-- Witness for `simulateCase_terminates` at a concrete input. -/
theorem simulateCase_terminates_witness :
    ([exA1, exA2] ≠ ([] : List ProcessActivity)) ∧
      ∃ out, simulateCase 1 [exA1, exA2] [exFlow] 0 exRand ∅ [] 0 =
        Except.ok out :=
  ⟨by decide, simulateCase_terminates 1 [exA1, exA2] [exFlow] 0 exRand ∅ [] 0
    (by decide)⟩

/-- `startIds` distributes over append. -/
theorem startIds_append (l₁ l₂ : List SimulationEvent) :
    startIds (l₁ ++ l₂) = startIds l₁ ++ startIds l₂ := by
  simp [startIds, List.filter_append]

/-- Driver-loop invariant: if the accumulated events all carry case ids below
the running counter and satisfy the per-case start-distinctness property, so
does the final log; the accumulator key set is preserved. -/
theorem simRun_spec (activities : List ProcessActivity) (flows : List ProcessFlow)
    (rand : ℕ → ℚ) :
    ∀ (n caseId : ℕ) (events : List SimulationEvent) (util : RoleTotals) (ridx : ℕ)
      (evs' : List SimulationEvent) (util' : RoleTotals),
      simRun activities flows rand n caseId events util ridx = Except.ok (evs', util') →
      (∀ e ∈ events, e.caseId < caseId) →
      (∀ c, (startIds (events.filter (fun e => e.caseId == c))).Nodup) →
      (∀ e ∈ evs', e.caseId < caseId + n) ∧
        (∀ c, (startIds (evs'.filter (fun e => e.caseId == c))).Nodup) ∧
        util'.map Prod.fst = util.map Prod.fst := by
  intro n
  induction n with
  | zero =>
    intro caseId events util ridx evs' util' h hlt hnd
    simp only [simRun, Except.ok.injEq, Prod.mk.injEq] at h
    obtain ⟨rfl, rfl⟩ := h
    exact ⟨fun e he => by simpa using hlt e he, hnd, rfl⟩
  | succ m ih =>
    intro caseId events util ridx evs' util' h hlt hnd
    simp only [simRun] at h
    split at h
    · simp at h
    · rename_i cevs util2 ridx2 heq
      obtain ⟨hcid, hnodup, hkeys⟩ := simulateCase_spec heq
      have hlt' : ∀ e ∈ events ++ cevs, e.caseId < caseId + 1 := by
        intro e he
        rcases List.mem_append.mp he with he | he
        · exact Nat.lt_succ_of_lt (hlt e he)
        · rw [hcid e he]; exact Nat.lt_succ_self _
      have hnd' : ∀ c,
          (startIds ((events ++ cevs).filter (fun e => e.caseId == c))).Nodup := by
        intro c
        rw [List.filter_append, startIds_append]
        by_cases hc : c = caseId
        · subst hc
          have h1 : events.filter (fun e => e.caseId == c) = [] := by
            rw [List.filter_eq_nil_iff]
            intro e he
            have := hlt e he
            simp only [beq_iff_eq]
            omega
          have h2 : cevs.filter (fun e => e.caseId == c) = cevs := by
            rw [List.filter_eq_self]
            intro e he
            simp [hcid e he]
          rw [h1, h2]
          simpa [startIds] using hnodup
        · have h2 : cevs.filter (fun e => e.caseId == c) = [] := by
            rw [List.filter_eq_nil_iff]
            intro e he
            simp [hcid e he, Ne.symm hc]
          rw [h2]
          simpa [startIds] using hnd c
      obtain ⟨h1, h2, h3⟩ := ih (caseId + 1) (events ++ cevs) util2 ridx2 evs' util' h hlt' hnd'
      refine ⟨?_, h2, h3.trans hkeys⟩
      intro e he
      have := h1 e he
      omega

/-- C6: for every process graph, scenario, random stream and case id, the
events of that case in the log produced by the simulation contain at most one
`start` event per activity id (the list of start-event activity ids has no
duplicates), even when an activity is reachable through several incoming flows
or cycles. -/
theorem at_most_one_start_per_activity_per_case
    (ps : ProcessStructure) (scenario : Scenario) (numInstances : ℕ)
    (rand : ℕ → ℚ) (evs : List SimulationEvent) (util : RoleTotals) (c : ℕ)
    (h : simulateProcess ps scenario numInstances rand = Except.ok (evs, util)) :
    (startIds (evs.filter (fun e => e.caseId == c))).Nodup := by
  have hspec := simRun_spec (applyScenarioModifications ps.activities scenario.modifications)
    ps.flows rand numInstances 1 [] (initUtil ps.resources) 0 evs util h
    (by simp) (by simp [startIds])
  exact hspec.2.1 c

/-- Fixture: the event log of one simulated case of `exPS` (any stream: the
durations are degenerate ranges), starting at the fixed calendar start. -/
def exEvents : List SimulationEvent :=
  [ { caseId := 1, activity := "A1", activityId := "A1", event := EventPhase.start,
      timestamp := caseStartMs, resource := "W", cost := 0, duration := none },
    { caseId := 1, activity := "A1", activityId := "A1", event := EventPhase.complete,
      timestamp := caseStartMs + 600000, resource := "W", cost := 5, duration := some 10 },
    { caseId := 1, activity := "A2", activityId := "A2", event := EventPhase.start,
      timestamp := caseStartMs + 600000, resource := "W", cost := 0, duration := none },
    { caseId := 1, activity := "A2", activityId := "A2", event := EventPhase.complete,
      timestamp := caseStartMs + 900000, resource := "W", cost := 3, duration := some 5 } ]

/-- Witness for `at_most_one_start_per_activity_per_case` on a concrete run. -/
theorem at_most_one_start_per_activity_per_case_witness :
    simulateProcess exPS exScenario 1 exRand = Except.ok (exEvents, []) ∧
      (startIds (exEvents.filter (fun e => e.caseId == 1))).Nodup :=
  ⟨by with_unfolding_all rfl,
    at_most_one_start_per_activity_per_case exPS exScenario 1 exRand exEvents [] 1
      (by with_unfolding_all rfl)⟩

/-- C2 (the hardening the specification demands is absent): on the empty event
log — which has zero completed cases — `calculatePerformanceMetrics` does
return `casesCompleted = 0`, but it propagates exactly the degenerate float
arithmetic the specification forbids: the throughput average and median are
`NaN` (`0/0` and `undefined + undefined`), the minimum is `Infinity`
(`Math.min()` of an empty spread), the maximum is `-Infinity`, and the average
cost is `NaN`. -/
theorem calculatePerformanceMetrics_empty_log_invalid :
    calculatePerformanceMetrics [] [] exPS =
      (⟨⟨JsNum.nan, JsNum.inf, JsNum.neginf, JsNum.nan⟩, ⟨JsNum.nan, 0⟩, [], [], 0⟩,
        []) := by
  decide

/-- Fixture: a log holding a single `start` event; its case never completes. -/
def exStartOnly : SimulationEvent :=
  { caseId := 1, activity := "A1", activityId := "A1", event := EventPhase.start,
    timestamp := 0, resource := "W", cost := 0, duration := none }

/-- C8 counterexample: a log with one `start` event and no `complete` event has
zero case ids with both a start and an end, yet `casesCompleted` is `1` —
`Object.keys(cases).length` counts every distinct case id that appears in the
log at all. -/
theorem casesCompleted_counts_uncompleted_counterexample :
    ([exStartOnly].filter (fun e => e.event == EventPhase.complete) = []) ∧
      (calculatePerformanceMetrics [exStartOnly] [] exPS).1.casesCompleted = 1 ∧
      (1 : ℕ) ≠ 0 := by
  decide

/-- Fixture: a `start` event whose timestamp is later than `exStartOnly`'s,
used ahead of it to build a non-chronological log. -/
def exLateStart : SimulationEvent :=
  { caseId := 1, activity := "A2", activityId := "A2", event := EventPhase.start,
    timestamp := 2, resource := "W", cost := 0, duration := none }

/-- C9 counterexample: handing `calculatePerformanceMetrics` a log whose first
event is later than its second leaves the caller's array chronologically
sorted, not in its original emission order — `events.sort` in
`calculateWaitingTimes` mutates the argument array in place. -/
theorem metrics_reorders_event_log_counterexample :
    (calculatePerformanceMetrics [exLateStart, exStartOnly] [] exPS).2 ≠
      [exLateStart, exStartOnly] := by
  decide

/-- Inserting an element permutes consing it. -/
theorem jsInsert_perm {α : Type} (le : α → α → Bool) (x : α) :
    ∀ (l : List α), (jsInsert le x l).Perm (x :: l)
  | [] => List.Perm.refl _
  | y :: ys => by
    simp only [jsInsert]
    split
    · exact List.Perm.refl _
    · exact ((jsInsert_perm le x ys).cons y).trans (List.Perm.swap x y ys)

/-- The stable sort permutes its input. -/
theorem jsSort_perm {α : Type} (le : α → α → Bool) :
    ∀ (l : List α), (jsSort le l).Perm l
  | [] => List.Perm.refl _
  | x :: xs => (jsInsert_perm le x (jsSort le xs)).trans ((jsSort_perm le xs).cons x)

/-- Inserting into a sorted list keeps it sorted, for a transitive and total
Boolean comparator. -/
theorem jsInsert_pairwise {α : Type} (le : α → α → Bool)
    (trans : ∀ a b c, le a b = true → le b c = true → le a c = true)
    (total : ∀ a b, le a b = true ∨ le b a = true) (x : α) :
    ∀ (l : List α), l.Pairwise (fun a b => le a b = true) →
      (jsInsert le x l).Pairwise (fun a b => le a b = true)
  | [], _ => by simp [jsInsert]
  | y :: ys, h => by
    obtain ⟨hy, hys⟩ := List.pairwise_cons.mp h
    simp only [jsInsert]
    split
    · rename_i hxy
      refine List.pairwise_cons.mpr ⟨?_, h⟩
      intro b hb
      rcases List.mem_cons.mp hb with rfl | hb
      · exact hxy
      · exact trans x y b hxy (hy b hb)
    · rename_i hxy
      have hyx : le y x = true := by
        rcases total x y with hx | hx
        · exact absurd hx hxy
        · exact hx
      refine List.pairwise_cons.mpr ⟨?_, jsInsert_pairwise le trans total x ys hys⟩
      intro b hb
      rcases List.mem_cons.mp ((jsInsert_perm le x ys).mem_iff.mp hb) with rfl | hb
      · exact hyx
      · exact hy b hb

/-- The stable sort sorts, for a transitive and total Boolean comparator. -/
theorem jsSort_pairwise {α : Type} (le : α → α → Bool)
    (trans : ∀ a b c, le a b = true → le b c = true → le a c = true)
    (total : ∀ a b, le a b = true ∨ le b a = true) :
    ∀ (l : List α), (jsSort le l).Pairwise (fun a b => le a b = true)
  | [] => by simp [jsSort]
  | x :: xs =>
      jsInsert_pairwise le trans total x (jsSort le xs)
        (jsSort_pairwise le trans total xs)

/-- A list that is already sorted is left unchanged by the stable sort. -/
theorem jsSort_of_sorted {α : Type} (le : α → α → Bool) :
    ∀ (l : List α), l.Pairwise (fun a b => le a b = true) → jsSort le l = l
  | [], _ => rfl
  | x :: xs, h => by
    obtain ⟨hx, hxs⟩ := List.pairwise_cons.mp h
    simp only [jsSort, jsSort_of_sorted le xs hxs]
    cases xs with
    | nil => rfl
    | cons y ys => simp [jsInsert, hx y (List.mem_cons_self _ _)]

/-- C9 corrected: `calculatePerformanceMetrics` leaves the multiset of events
intact — no event is modified, none is added or dropped — but the caller's
array state after the call is the chronologically sorted permutation of the
input (the in-place `events.sort` of `calculateWaitingTimes`); it coincides
with the original emission order exactly when that order was already
timestamp-sorted. -/
theorem metrics_event_log_perm_sorted (events : List SimulationEvent)
    (resourceUtil : RoleTotals) (ps : ProcessStructure) :
    (calculatePerformanceMetrics events resourceUtil ps).2.Perm events ∧
      (calculatePerformanceMetrics events resourceUtil ps).2.Pairwise
        (fun a b => tsLe a b = true) ∧
      (events.Pairwise (fun a b => tsLe a b = true) →
        (calculatePerformanceMetrics events resourceUtil ps).2 = events) := by
  have h2 : (calculatePerformanceMetrics events resourceUtil ps).2 =
      jsSort tsLe events := rfl
  rw [h2]
  refine ⟨jsSort_perm tsLe events, jsSort_pairwise tsLe ?_ ?_ events,
    fun hs => jsSort_of_sorted tsLe events hs⟩
  · intro a b c hab hbc
    simp only [tsLe, decide_eq_true_eq] at *
    exact le_trans hab hbc
  · intro a b
    rcases le_total a.timestamp b.timestamp with h | h
    · exact Or.inl (by simp [tsLe, h])
    · exact Or.inr (by simp [tsLe, h])

/-- Witness for `metrics_event_log_perm_sorted`: on an already-sorted
singleton log the array is returned unchanged. -/
theorem metrics_event_log_perm_sorted_witness :
    (calculatePerformanceMetrics [exStartOnly] [] exPS).2.Perm [exStartOnly] ∧
      ([exStartOnly].Pairwise (fun a b => tsLe a b = true)) ∧
      (calculatePerformanceMetrics [exStartOnly] [] exPS).2 = [exStartOnly] :=
  ⟨(metrics_event_log_perm_sorted [exStartOnly] [] exPS).1, by simp,
    (metrics_event_log_perm_sorted [exStartOnly] [] exPS).2.2 (by simp)⟩

/-- A key-probe `find?` on an association list succeeds exactly when the key
occurs among the first components. -/
theorem find?_key_isSome_iff {α β : Type} [BEq α] [LawfulBEq α]
    (l : List (α × β)) (k : α) :
    (l.find? (fun p => p.1 == k)).isSome ↔ k ∈ l.map Prod.fst := by
  rw [List.find?_isSome]
  constructor
  · rintro ⟨p, hp, hpk⟩
    have hk : p.1 = k := by simpa using hpk
    exact hk ▸ List.mem_map_of_mem Prod.fst hp
  · intro hmem
    obtain ⟨p, hp, hpk⟩ := List.mem_map.mp hmem
    exact ⟨p, hp, by simp [hpk]⟩

/-- One `events.forEach` step extends the key list by the event's case id
exactly when the id is new, preserving order. -/
theorem updateCases_keys (cases : List (ℕ × CaseAgg)) (e : SimulationEvent) :
    (updateCases cases e).map Prod.fst =
      if e.caseId ∈ cases.map Prod.fst then cases.map Prod.fst
      else cases.map Prod.fst ++ [e.caseId] := by
  have hmap : ∀ (l : List (ℕ × CaseAgg)),
      (l.map (fun p => if p.1 == e.caseId then (p.1, applyEventToCase p.2 e) else p)).map
          Prod.fst = l.map Prod.fst := by
    intro l
    induction l with
    | nil => rfl
    | cons p ps ih =>
      simp only [List.map_cons] at ih ⊢
      split <;> simp_all
  by_cases hmem : e.caseId ∈ cases.map Prod.fst
  · have hfind : (cases.find? (fun p => p.1 == e.caseId)).isSome = true :=
      (find?_key_isSome_iff cases e.caseId).mpr hmem
    rw [if_pos hmem]
    simp only [updateCases, hfind, if_pos]
    exact hmap cases
  · have hfind : (cases.find? (fun p => p.1 == e.caseId)).isSome = false := by
      rw [Bool.eq_false_iff]
      intro hs
      exact hmem ((find?_key_isSome_iff cases e.caseId).mp hs)
    rw [if_neg hmem]
    simp only [updateCases, hfind, Bool.false_eq_true, if_false]
    rw [hmap]
    simp

/-- Folding a log into the `cases` dictionary: the key set is the initial keys
joined with the log's case ids, and key distinctness is preserved. -/
theorem foldl_updateCases_keys :
    ∀ (events : List SimulationEvent) (acc : List (ℕ × CaseAgg)),
      (((events.foldl updateCases acc).map Prod.fst).toFinset =
        (acc.map Prod.fst).toFinset ∪ (events.map (fun e => e.caseId)).toFinset) ∧
      ((acc.map Prod.fst).Nodup → ((events.foldl updateCases acc).map Prod.fst).Nodup)
  | [], acc => by simp
  | e :: events, acc => by
    obtain ⟨ih1, ih2⟩ := foldl_updateCases_keys events (updateCases acc e)
    constructor
    · rw [List.foldl_cons, ih1, updateCases_keys]
      by_cases hmem : e.caseId ∈ acc.map Prod.fst
      · rw [if_pos hmem]
        ext x
        simp only [Finset.mem_union, List.mem_toFinset, List.map_cons,
          List.mem_cons]
        constructor
        · rintro (hx | hx)
          · exact Or.inl hx
          · exact Or.inr (Or.inr hx)
        · rintro (hx | rfl | hx)
          · exact Or.inl hx
          · exact Or.inl hmem
          · exact Or.inr hx
      · rw [if_neg hmem]
        ext x
        simp only [Finset.mem_union, List.mem_toFinset, List.map_cons,
          List.mem_cons, List.mem_append, List.mem_singleton]
        tauto
    · intro hnd
      apply ih2
      rw [updateCases_keys]
      by_cases hmem : e.caseId ∈ acc.map Prod.fst
      · rw [if_pos hmem]
        exact hnd
      · rw [if_neg hmem]
        simp [List.nodup_append, hnd, hmem]

/-- C8 corrected: `casesCompleted` equals the number of distinct case ids that
appear anywhere in the event log (`Object.keys(cases).length`), not the number
of case ids having both a start and an end — a case id occurring only in
`start` events is still counted. -/
theorem casesCompleted_eq_distinct_caseIds (events : List SimulationEvent)
    (resourceUtil : RoleTotals) (ps : ProcessStructure) :
    (calculatePerformanceMetrics events resourceUtil ps).1.casesCompleted =
      (events.map (fun e => e.caseId)).toFinset.card := by
  have h1 : (calculatePerformanceMetrics events resourceUtil ps).1.casesCompleted =
      (buildCases events).length := rfl
  obtain ⟨hset, hnd⟩ := foldl_updateCases_keys events []
  simp only [buildCases] at h1
  rw [h1, ← List.length_map (List.foldl updateCases [] events) Prod.fst,
    ← List.toFinset_card_of_nodup (hnd (by simp))]
  congr 1


/-- Fixture: a modification list that sets the cost of `A1` to zero. -/
def exZeroCostMods : ScenarioModifications :=
  { activities := some [{ id := "A1", duration := none, cost := some 0, resources := none }],
    resources := none }

/-- C3 counterexample: the modification `{ id: "A1", cost: 0 }` is present for
activity `A1` (original cost 5), yet the produced activity keeps cost 5 — the
claim's "including zero values" fails because `mod.cost || activity.cost`
treats a present zero override as falsy. -/
theorem zero_cost_override_ignored_counterexample :
    (applyScenarioModifications [exA1] (some exZeroCostMods)).map
        (fun a => a.cost) = [5] ∧ (5 : ℚ) ≠ 0 := by
  constructor
  · with_unfolding_all rfl
  · norm_num

/-- C3 corrected: elementwise characterisation of `applyScenarioModifications`.
The output has the same length and order as the input; an activity with no
matching modification passes through unchanged; an activity with a matching
modification keeps all its other fields and takes the override's duration
whenever that field is present, but the override's cost and resources only
when present *and non-zero* — a present zero override falls back to the
original value, because `||` treats `0` as falsy. -/
theorem applyScenarioModifications_characterization
    (activities : List ProcessActivity)
    (modifications : Option ScenarioModifications) :
    (applyScenarioModifications activities modifications).length =
        activities.length ∧
      ∀ i : ℕ,
        (applyScenarioModifications activities modifications)[i]? =
          (activities[i]?).map (fun a =>
            match ((modifications.bind (fun m => m.activities)).getD []).find?
                (fun m => m.id == a.id) with
            | none => a
            | some mod =>
                { a with
                  duration := match mod.duration with
                    | some d => d
                    | none => a.duration
                  cost := match mod.cost with
                    | some c => if c = 0 then a.cost else c
                    | none => a.cost
                  resources := match mod.resources with
                    | some r => if r = 0 then a.resources else r
                    | none => a.resources }) := by
  cases modifications with
  | none =>
    refine ⟨rfl, fun i => ?_⟩
    simp only [applyScenarioModifications, Option.bind]
    cases activities[i]? <;> simp
  | some mods =>
    refine ⟨by simp [applyScenarioModifications], fun i => ?_⟩
    simp only [applyScenarioModifications, List.getElem?_map, Option.bind]
    cases activities[i]? with
    | none => rfl
    | some a =>
      simp only [Option.map_some']
      congr 1
      cases hfind : (mods.activities.getD []).find? (fun m => m.id == a.id) with
      | none => simp [hfind]
      | some mod =>
        simp only [hfind]
        cases mod.duration <;> cases hc : mod.cost <;> cases mod.resources <;>
          simp [jsOrOptQ]

/-- Recognises a thrown `ValidationError`. -/
def isValidationError {α : Type} : Except JsError α → Bool
  | Except.error (JsError.validationError _) => true
  | _ => false

/-- Fixture: a process structure with an empty activity list. -/
def exEmptyPS : ProcessStructure :=
  { processName := "Empty", activities := [], flows := [], resources := [] }

/-- C4 counterexample: simulating a process whose activity list is empty does
not fail with a `ValidationError` — there is no validation step anywhere in
the source — but aborts with the `TypeError` thrown by reading
`activities[0].id` inside the first `simulateCase` call. -/
theorem empty_activities_not_validation_error_counterexample :
    isValidationError (simulateProcess exEmptyPS exScenario 1 exRand) = false ∧
      simulateProcess exEmptyPS exScenario 1 exRand =
        Except.error
          (JsError.typeError "Cannot read properties of undefined (reading id)") := by
  constructor
  · with_unfolding_all rfl
  · with_unfolding_all rfl

/-- C4 corrected: with an empty activity list and at least one instance, the
simulation does abort before any event is produced and before any case
record is created — but with the `TypeError` raised by `activities[0].id`
inside the first `simulateCase` call, not with a `ValidationError`, and not in
a validation step preceding the simulation (resource initialisation and
scenario application have already run). -/
theorem empty_activities_type_error (processName : String)
    (flows : List ProcessFlow) (resources : List ProcessResource)
    (scenario : Scenario) (numInstances : ℕ) (rand : ℕ → ℚ)
    (h : 1 ≤ numInstances) :
    simulateProcess ⟨processName, [], flows, resources⟩ scenario numInstances rand =
      Except.error
        (JsError.typeError "Cannot read properties of undefined (reading id)") := by
  obtain ⟨m, rfl⟩ : ∃ m, numInstances = m + 1 := ⟨numInstances - 1, by omega⟩
  have hmods : applyScenarioModifications [] scenario.modifications = [] := by
    cases scenario.modifications <;> simp [applyScenarioModifications]
  simp [simulateProcess, hmods, simRun, simulateCase]

/-- Witness for `empty_activities_type_error` at a concrete input. -/
theorem empty_activities_type_error_witness :
    1 ≤ 1 ∧
      simulateProcess ⟨"Empty", [], [], []⟩ exScenario 1 exRand =
        Except.error
          (JsError.typeError "Cannot read properties of undefined (reading id)") :=
  ⟨le_rfl, empty_activities_type_error "Empty" [] [] exScenario 1 exRand le_rfl⟩

/-- The expected four-event log of the specification's worked example for a
case started at time `t0` (milliseconds): `A1` runs 10 minutes (600000 ms) at
cost 5, then `A2` runs 5 minutes at cost 3. -/
def exExpectedEvents (t0 : ℚ) : List SimulationEvent :=
  [ ⟨1, "A1", "A1", EventPhase.start, t0, "W", 0, none⟩,
    ⟨1, "A1", "A1", EventPhase.complete, t0 + 600000, "W", 5, some 10⟩,
    ⟨1, "A2", "A2", EventPhase.start, t0 + 600000, "W", 0, none⟩,
    ⟨1, "A2", "A2", EventPhase.complete, t0 + 900000, "W", 3, some 5⟩ ]

/-- C5: one simulated case of `A1(dur=10..10, cost 5) → A2(dur=5..5, cost 3)`
over the single unconditional probability-1 flow, started at any time `t0` and
driven by any random stream (the duration ranges are degenerate), produces
exactly the four events `A1 start@t0`, `A1 complete@t0+10min (cost 5, dur 10)`,
`A2 start@t0+10min`, `A2 complete@t0+15min (cost 3, dur 5)`, and the metrics
derived from that log have throughput average 0.25 hours, cost average 8,
cost total 8 and `casesCompleted = 1`. -/
theorem two_activity_example_log_and_metrics (t0 : ℚ) (rand : ℕ → ℚ) :
    simulateCase 1 [exA1, exA2] [exFlow] t0 rand ∅ [] 0 =
        Except.ok (exExpectedEvents t0, [], 2) ∧
      (calculatePerformanceMetrics (exExpectedEvents t0) [] exPS).1.throughput.avg =
        JsNum.num (1 / 4) ∧
      (calculatePerformanceMetrics (exExpectedEvents t0) [] exPS).1.cost.avg =
        JsNum.num 8 ∧
      (calculatePerformanceMetrics (exExpectedEvents t0) [] exPS).1.cost.total = 8 ∧
      (calculatePerformanceMetrics (exExpectedEvents t0) [] exPS).1.casesCompleted = 1 := by
  constructor
  · have hfuel : caseFuel [exA1, exA2] [exFlow] [⟨exA1.id, t0⟩] ∅ = 5 := by
      with_unfolding_all rfl
    have hfind1 : List.find? (fun a => a.id == exA1.id) [exA1, exA2] = some exA1 := by
      with_unfolding_all rfl
    have hfind2 : List.find? (fun a => a.id == exFlow.«to») [exA1, exA2] = some exA2 := by
      with_unfolding_all rfl
    have hfilter1 : [exFlow].filter (fun f => f.«from» == exA1.id) = [exFlow] := by
      with_unfolding_all rfl
    have hfilter2 : [exFlow].filter (fun f => f.«from» == exA2.id) = [] := by
      with_unfolding_all rfl
    have hcond : condTruthy exFlow.condition = false := by with_unfolding_all rfl
    have hmem2 : exFlow.«to» ∉ insert exA1.id (∅ : Finset String) := by decide
    simp only [simulateCase, hfuel, simCaseLoop, enqueueFlows, addBusy,
      hfind1, hfind2, hfilter1, hfilter2, hcond, hmem2, Finset.not_mem_empty,
      List.map_nil, List.nil_append, List.append_nil, List.cons_append,
      if_true, if_false, not_false_eq_true, List.append_assoc]
    simp only [exA1, exA2, exFlow, exExpectedEvents, jsOrQ]
    ring_nf
    norm_num
  · simp [calculatePerformanceMetrics, exExpectedEvents, buildCases, updateCases,
      applyEventToCase, throughputTimes, caseCosts, completedAggs, qsum, jsDiv]
    norm_num

/-- Two flows that agree on everything except possibly the condition label,
whose conditions moreover have the same truthiness. -/
def FlowAgrees (f₁ f₂ : ProcessFlow) : Prop :=
  f₁.«from» = f₂.«from» ∧ f₁.«to» = f₂.«to» ∧ f₁.probability = f₂.probability ∧
    condTruthy f₁.condition = condTruthy f₂.condition

/-- The flow-enqueueing loop is insensitive to condition labels of equal
truthiness. -/
theorem enqueueFlows_congr (rand : ℕ → ℚ) (endTime : ℚ)
    {fs₁ fs₂ : List ProcessFlow} (h : List.Forall₂ FlowAgrees fs₁ fs₂) :
    ∀ ridx, enqueueFlows rand endTime fs₁ ridx = enqueueFlows rand endTime fs₂ ridx := by
  induction h with
  | nil => intro ridx; rfl
  | cons hf hrest ih =>
    intro ridx
    obtain ⟨hfrom, hto, hprob, hcond⟩ := hf
    simp only [enqueueFlows, hcond, hto, hprob, ih]

/-- Filtering on the source endpoint preserves the flow agreement relation. -/
theorem filter_from_congr {flows₁ flows₂ : List ProcessFlow}
    (h : List.Forall₂ FlowAgrees flows₁ flows₂) (aid : String) :
    List.Forall₂ FlowAgrees (flows₁.filter (fun f => f.«from» == aid))
      (flows₂.filter (fun f => f.«from» == aid)) := by
  induction h with
  | nil => simp
  | cons hf hrest ih =>
    rename_i f₁ f₂ l₁ l₂
    have hfrom := hf.1
    by_cases hc : (f₁.«from» == aid) = true
    · rw [List.filter_cons_of_pos (by simpa using hc),
        List.filter_cons_of_pos (by simpa [← hfrom] using hc)]
      exact List.Forall₂.cons hf ih
    · rw [List.filter_cons_of_neg (by simpa using hc),
        List.filter_cons_of_neg (by simpa [← hfrom] using hc)]
      exact ih

/-- The worklist loop is insensitive to condition labels of equal truthiness. -/
theorem simCaseLoop_congr (caseId : ℕ) (activities : List ProcessActivity)
    {flows₁ flows₂ : List ProcessFlow}
    (hf : List.Forall₂ FlowAgrees flows₁ flows₂) (rand : ℕ → ℚ) :
    ∀ (fuel : ℕ) (queue : List WorkItem) (visited : Finset String)
      (events : List SimulationEvent) (util : RoleTotals) (ridx : ℕ),
      simCaseLoop caseId activities flows₁ rand fuel queue visited events util ridx =
        simCaseLoop caseId activities flows₂ rand fuel queue visited events util ridx := by
  intro fuel
  induction fuel with
  | zero =>
    intro queue visited events util ridx
    cases queue <;> rfl
  | succ f ih =>
    intro queue visited events util ridx
    cases queue with
    | nil => rfl
    | cons item rest =>
      simp only [simCaseLoop]
      split
      · exact ih rest visited events util ridx
      · split
        · exact ih rest visited events util ridx
        · rename_i activity hfind
          rw [enqueueFlows_congr rand _ (filter_from_congr hf item.activityId) (ridx + 1)]
          exact ih _ _ _ _ _

/-- `simulateCase` is insensitive to condition labels of equal truthiness. -/
theorem simulateCase_congr (caseId : ℕ) (activities : List ProcessActivity)
    {flows₁ flows₂ : List ProcessFlow}
    (hf : List.Forall₂ FlowAgrees flows₁ flows₂) (startTime : ℚ) (rand : ℕ → ℚ)
    (visited : Finset String) (util : RoleTotals) (ridx : ℕ) :
    simulateCase caseId activities flows₁ startTime rand visited util ridx =
      simulateCase caseId activities flows₂ startTime rand visited util ridx := by
  cases activities with
  | nil => rfl
  | cons a0 rest =>
    have hfuel : caseFuel (a0 :: rest) flows₁ [⟨a0.id, startTime⟩] visited =
        caseFuel (a0 :: rest) flows₂ [⟨a0.id, startTime⟩] visited := by
      simp [caseFuel, List.Forall₂.length_eq hf]
    simp only [simulateCase, hfuel,
      simCaseLoop_congr caseId (a0 :: rest) hf rand _ _ _ _ _ _]

/-- The instance driver is insensitive to condition labels of equal
truthiness. -/
theorem simRun_congr (activities : List ProcessActivity)
    {flows₁ flows₂ : List ProcessFlow}
    (hf : List.Forall₂ FlowAgrees flows₁ flows₂) (rand : ℕ → ℚ) :
    ∀ (n caseId : ℕ) (events : List SimulationEvent) (util : RoleTotals) (ridx : ℕ),
      simRun activities flows₁ rand n caseId events util ridx =
        simRun activities flows₂ rand n caseId events util ridx := by
  intro n
  induction n with
  | zero => intro caseId events util ridx; rfl
  | succ m ih =>
    intro caseId events util ridx
    simp only [simRun, simulateCase_congr caseId activities hf caseStartMs rand ∅ util ridx]
    split <;> simp [ih]

/-- C1 corrected: flow traversal never reads the condition label's *content*,
but it does read its *presence*: `!flow.condition || Math.random() < p` always
enqueues a flow whose condition is falsy (without consuming a draw) and
otherwise consumes one draw and compares it to the probability.  Hence two
graphs that are identical except for the condition fields of their flows
produce identical event logs under the same random stream provided the
replaced conditions have the same truthiness flow-by-flow. -/
theorem event_log_depends_only_on_condition_truthiness
    (ps₁ ps₂ : ProcessStructure) (scenario : Scenario) (numInstances : ℕ)
    (rand : ℕ → ℚ) (hacts : ps₁.activities = ps₂.activities)
    (hres : ps₁.resources = ps₂.resources)
    (hflows : List.Forall₂ FlowAgrees ps₁.flows ps₂.flows) :
    simulateProcess ps₁ scenario numInstances rand =
      simulateProcess ps₂ scenario numInstances rand := by
  simp only [simulateProcess, hacts, hres,
    simRun_congr _ hflows rand numInstances 1 [] _ 0]

/-- Fixture: the worked-example flow weakened to probability 1/2, without a
condition label. -/
def exHalfFlowNoCond : ProcessFlow :=
  { «from» := "A1", «to» := "A2", condition := none, probability := 1 / 2 }

/-- Fixture: the same flow with a (truthy) condition label. -/
def exHalfFlowCond : ProcessFlow :=
  { «from» := "A1", «to» := "A2", condition := some "x", probability := 1 / 2 }

/-- Fixture: two-activity process over the no-condition half-probability flow. -/
def exPSNoCond : ProcessStructure :=
  { processName := "P", activities := [exA1, exA2], flows := [exHalfFlowNoCond],
    resources := [] }

/-- Fixture: the identical process except for the flow's condition field. -/
def exPSCond : ProcessStructure :=
  { processName := "P", activities := [exA1, exA2], flows := [exHalfFlowCond],
    resources := [] }

/-- C1 counterexample: the two processes differ only in the condition field of
their single flow (same endpoints, same probability 1/2), yet under the same
random stream (constantly 3/4) one run traverses the flow (no condition: no
draw, always enqueue) and the other does not (3/4 < 1/2 fails), producing
different event logs. -/
theorem condition_field_changes_log_counterexample :
    exPSNoCond.activities = exPSCond.activities ∧
      exPSNoCond.resources = exPSCond.resources ∧
      exPSNoCond.flows.map (fun f => (f.«from», f.«to», f.probability)) =
        exPSCond.flows.map (fun f => (f.«from», f.«to», f.probability)) ∧
      Except.map Prod.fst (simulateProcess exPSNoCond exScenario 1 exRand) ≠
        Except.map Prod.fst (simulateProcess exPSCond exScenario 1 exRand) := by
  refine ⟨rfl, rfl, rfl, ?_⟩
  have h1 : simulateProcess exPSNoCond exScenario 1 exRand =
      Except.ok (exEvents, []) := by
    with_unfolding_all rfl
  have h2 : simulateProcess exPSCond exScenario 1 exRand =
      Except.ok ([ ⟨1, "A1", "A1", EventPhase.start, caseStartMs, "W", 0, none⟩,
        ⟨1, "A1", "A1", EventPhase.complete, caseStartMs + 600000, "W", 5,
          some 10⟩ ], []) := by
    with_unfolding_all rfl
  rw [h1, h2]
  simp [Except.map, exEvents]

/-- Fixture: the half-probability flow with a different truthy condition
label. -/
def exHalfFlowCondY : ProcessFlow :=
  { «from» := "A1", «to» := "A2", condition := some "y", probability := 1 / 2 }

/-- Fixture: the process over `exHalfFlowCondY`. -/
def exPSCondY : ProcessStructure :=
  { processName := "P", activities := [exA1, exA2], flows := [exHalfFlowCondY],
    resources := [] }

/-- Witness for `event_log_depends_only_on_condition_truthiness`: two distinct
truthy condition labels on the same flow give identical runs. -/
theorem event_log_depends_only_on_condition_truthiness_witness :
    List.Forall₂ FlowAgrees exPSCond.flows exPSCondY.flows ∧
      simulateProcess exPSCond exScenario 1 exRand =
        simulateProcess exPSCondY exScenario 1 exRand := by
  have hyp : List.Forall₂ FlowAgrees exPSCond.flows exPSCondY.flows :=
    List.Forall₂.cons ⟨rfl, rfl, rfl, by decide⟩ List.Forall₂.nil
  exact ⟨hyp,
    event_log_depends_only_on_condition_truthiness _ _ exScenario 1 exRand rfl rfl hyp⟩

/-- One resource-initialisation step extends the key list by the role exactly
when the role is new, preserving order. -/
theorem initUtilStep_keys (util : RoleTotals) (r : ProcessResource) :
    (initUtilStep util r).map Prod.fst =
      if r.role ∈ util.map Prod.fst then util.map Prod.fst
      else util.map Prod.fst ++ [r.role] := by
  have hmap : ∀ (l : RoleTotals),
      (l.map (fun p => if p.1 == r.role then (p.1, (0 : ℚ)) else p)).map Prod.fst =
        l.map Prod.fst := by
    intro l
    induction l with
    | nil => rfl
    | cons p ps ih =>
      simp only [List.map_cons] at ih ⊢
      split <;> simp_all
  by_cases hmem : r.role ∈ util.map Prod.fst
  · have hfind : (util.find? (fun p => p.1 == r.role)).isSome = true :=
      (find?_key_isSome_iff util r.role).mpr hmem
    rw [if_pos hmem]
    simp only [initUtilStep, hfind, if_pos]
    exact hmap util
  · have hfind : (util.find? (fun p => p.1 == r.role)).isSome = false := by
      rw [Bool.eq_false_iff]
      intro hs
      exact hmem ((find?_key_isSome_iff util r.role).mp hs)
    rw [if_neg hmem]
    simp only [initUtilStep, hfind, Bool.false_eq_true, if_false]
    simp

/-- The accumulator built from the resource list has pairwise-distinct keys
whose set is exactly the set of declared roles. -/
theorem foldl_initUtilStep_keys :
    ∀ (resources : List ProcessResource) (acc : RoleTotals),
      (((resources.foldl initUtilStep acc).map Prod.fst).toFinset =
        (acc.map Prod.fst).toFinset ∪ (resources.map (fun r => r.role)).toFinset) ∧
      ((acc.map Prod.fst).Nodup → ((resources.foldl initUtilStep acc).map Prod.fst).Nodup)
  | [], acc => by simp
  | r :: resources, acc => by
    obtain ⟨ih1, ih2⟩ := foldl_initUtilStep_keys resources (initUtilStep acc r)
    constructor
    · rw [List.foldl_cons, ih1, initUtilStep_keys]
      by_cases hmem : r.role ∈ acc.map Prod.fst
      · rw [if_pos hmem]
        ext x
        simp only [Finset.mem_union, List.mem_toFinset, List.map_cons,
          List.mem_cons]
        constructor
        · rintro (hx | hx)
          · exact Or.inl hx
          · exact Or.inr (Or.inr hx)
        · rintro (hx | rfl | hx)
          · exact Or.inl hx
          · exact Or.inl hmem
          · exact Or.inr hx
      · rw [if_neg hmem]
        ext x
        simp only [Finset.mem_union, List.mem_toFinset, List.map_cons,
          List.mem_cons, List.mem_append, List.mem_singleton]
        tauto
    · intro hnd
      apply ih2
      rw [initUtilStep_keys]
      by_cases hmem : r.role ∈ acc.map Prod.fst
      · rw [if_pos hmem]
        exact hnd
      · rw [if_neg hmem]
        simp [List.nodup_append, hnd, hmem]

/-- A non-empty log reconstructs at least one case. -/
theorem buildCases_ne_nil {evs : List SimulationEvent} (h : evs ≠ []) :
    buildCases evs ≠ [] := by
  obtain ⟨e, rest, rfl⟩ : ∃ e rest, evs = e :: rest := by
    cases evs with
    | nil => exact absurd rfl h
    | cons e rest => exact ⟨e, rest, rfl⟩
  intro hnil
  have hset := (foldl_updateCases_keys (e :: rest) []).1
  simp only [buildCases] at hnil
  rw [hnil] at hset
  have : e.caseId ∈ (([] : List (ℕ × CaseAgg)).map Prod.fst).toFinset := by
    rw [hset]
    simp
  simp at this

/-- Rewriting per-entry values never changes the key list. -/
theorem util_map_keys (util : RoleTotals) (f : String × ℚ → JsNum) :
    (util.map (fun p => (p.1, f p))).map Prod.fst = util.map Prod.fst := by
  induction util with
  | nil => rfl
  | cons p ps ih => simp_all

/-- C10 corrected: busy minutes are only ever recorded under keys created from
the declared resource roles — the accumulator's key list is preserved through
the whole run and equals the (first-occurrence, duplicate-free) declared role
list, so an activity whose performer is not a declared role contributes
nothing to any utilization figure; the returned utilization map has exactly
those keys; and a declared role with no busy minutes reports `0` provided at
least one case appears in the log and every declaration of that role has
non-zero capacity (with capacity `0` the reported value is `NaN`, see the
counterexample). -/
theorem utilization_keys_declared_roles
    (ps : ProcessStructure) (scenario : Scenario) (numInstances : ℕ)
    (rand : ℕ → ℚ) (evs : List SimulationEvent) (util : RoleTotals)
    (h : simulateProcess ps scenario numInstances rand = Except.ok (evs, util)) :
    util.map Prod.fst = (initUtil ps.resources).map Prod.fst ∧
      ((initUtil ps.resources).map Prod.fst).Nodup ∧
      ((initUtil ps.resources).map Prod.fst).toFinset =
        (ps.resources.map (fun r => r.role)).toFinset ∧
      (calculatePerformanceMetrics evs util ps).1.utilization.map Prod.fst =
        util.map Prod.fst ∧
      ∀ p ∈ util, p.2 = 0 → evs ≠ [] →
        (∀ r ∈ ps.resources, r.role = p.1 → r.capacity ≠ 0) →
        (p.1, JsNum.num 0) ∈ (calculatePerformanceMetrics evs util ps).1.utilization := by
  have hrun := simRun_spec (applyScenarioModifications ps.activities scenario.modifications)
    ps.flows rand numInstances 1 [] (initUtil ps.resources) 0 evs util h
    (by simp) (by simp [startIds])
  obtain ⟨hinit1, hinit2⟩ := foldl_initUtilStep_keys ps.resources []
  refine ⟨hrun.2.2, hinit2 (by simp), by simpa using hinit1, util_map_keys util _, ?_⟩
  intro p hp hzero hevs hcap
  have hlen : (buildCases evs).length ≠ 0 := fun hh =>
    buildCases_ne_nil hevs (List.length_eq_zero.mp hh)
  have hn : (((buildCases evs).length : ℚ)) ≠ 0 := Nat.cast_ne_zero.mpr hlen
  have hT : (8 : ℚ) * 60 * ((buildCases evs).length : ℚ) / 5 ≠ 0 := by
    rw [div_ne_zero_iff]
    exact ⟨mul_ne_zero (by norm_num) hn, by norm_num⟩
  have hcap0 : (match ps.resources.find? (fun r => r.role == p.1) with
      | some resource => resource.capacity
      | none => 1) ≠ (0 : ℚ) := by
    cases hfind : ps.resources.find? (fun r => r.role == p.1) with
    | none => exact one_ne_zero
    | some r =>
        have hr : r ∈ ps.resources := List.mem_of_find?_eq_some hfind
        have hrole : r.role = p.1 := by simpa using List.find?_some hfind
        exact hcap r hr hrole
  show (p.1, JsNum.num 0) ∈
    util.map (fun q =>
      (q.1, jsMul100 (jsDiv q.2
        (8 * 60 * ((buildCases evs).length : ℚ) / 5 *
          (match ps.resources.find? (fun r => r.role == q.1) with
            | some resource => resource.capacity
            | none => 1)))))
  refine List.mem_map.mpr ⟨p, hp, ?_⟩
  rw [hzero]
  rw [show jsDiv 0 (8 * 60 * ((buildCases evs).length : ℚ) / 5 *
      (match ps.resources.find? (fun r => r.role == p.1) with
        | some resource => resource.capacity
        | none => 1)) = JsNum.num 0 by
    simp [jsDiv, mul_ne_zero hT hcap0]]
  simp [jsMul100]

/-- Fixture: the two-event log of one case running only `A1`. -/
def exA1OnlyEvents : List SimulationEvent :=
  [ ⟨1, "A1", "A1", EventPhase.start, caseStartMs, "W", 0, none⟩,
    ⟨1, "A1", "A1", EventPhase.complete, caseStartMs + 600000, "W", 5, some 10⟩ ]

/-- Fixture: a process declaring one role `R` with capacity `0`; `A1`'s
performer `W` is not declared, so `R` accumulates no busy minutes. -/
def exZeroCapPS : ProcessStructure :=
  { processName := "P", activities := [exA1], flows := [],
    resources := [⟨"R", 0, 10⟩] }

/-- C10 counterexample: a declared role with no busy minutes and capacity `0`
appears after a one-case run with value `NaN`, not `0`: its utilization is
`0 / (totalSimTime * 0) * 100 = NaN`. -/
theorem zero_capacity_role_nan_utilization_counterexample :
    simulateProcess exZeroCapPS exScenario 1 exRand =
        Except.ok (exA1OnlyEvents, [("R", 0)]) ∧
      (calculatePerformanceMetrics exA1OnlyEvents [("R", 0)] exZeroCapPS).1.utilization =
        [("R", JsNum.nan)] ∧
      JsNum.nan ≠ JsNum.num 0 := by
  refine ⟨by with_unfolding_all rfl, by with_unfolding_all rfl, by decide⟩

/-- Fixture: the same process but with role `R` declared at capacity `2`. -/
def exWPS : ProcessStructure :=
  { processName := "P", activities := [exA1], flows := [],
    resources := [⟨"R", 2, 10⟩] }

/-- Witness for `utilization_keys_declared_roles` on a concrete run. -/
theorem utilization_keys_declared_roles_witness :
    simulateProcess exWPS exScenario 1 exRand =
        Except.ok (exA1OnlyEvents, [("R", 0)]) ∧
      [("R", (0 : ℚ))].map Prod.fst = (initUtil exWPS.resources).map Prod.fst ∧
      ("R", JsNum.num 0) ∈
        (calculatePerformanceMetrics exA1OnlyEvents [("R", 0)] exWPS).1.utilization := by
  have h : simulateProcess exWPS exScenario 1 exRand =
      Except.ok (exA1OnlyEvents, [("R", 0)]) := by
    with_unfolding_all rfl
  have main := utilization_keys_declared_roles exWPS exScenario 1 exRand
    exA1OnlyEvents [("R", 0)] h
  refine ⟨h, main.1, ?_⟩
  refine main.2.2.2.2 ("R", 0) (by simp) rfl (by simp [exA1OnlyEvents]) ?_
  intro r hr hrole
  simp only [exWPS, List.mem_singleton] at hr
  subst hr
  norm_num
